import Mathlib

/-!
# Verification of the forward-mode automatic differentiation core

Shallow embedding of `src/autodiff/forward/forward.hpp`.

The C++ code computes with `double`; the embedding models the numeric type
by `ℚ` (exact field arithmetic, with Lean's total-division convention
`x / 0 = 0`).  The elementary transcendental functions (`sin`, `cos`, `exp`,
`log`, `pow`, `sqrt`, `abs`, …) are external collaborators of the core (the
spec declares them out of scope, "invoked, not reimplemented"), so the
engine is parameterised over a bundle `Funs` of abstract functions `ℚ → ℚ`.

Expression-tree leaves carry a ghost identifier (`Nat`); every reduction
function additionally returns the list of leaf identifiers in the order in
which the corresponding C++ overload reads the leaf's storage.  This trace
is pure instrumentation: it lets evaluation order (spec §4.2 / §5) be
stated and checked.
-/

namespace Autodiff

/-- The dual-number storage type `Dual<T, G>` (forward.hpp:380-386) at the
principal instantiation `dual = Dual<double, double>` (forward.hpp:1589),
with `double` modelled by `ℚ`. -/
structure Dual where
  val : ℚ
  grad : ℚ
deriving DecidableEq, Repr

/-- The external standard math library (spec §1 OUT OF SCOPE; forward.hpp:47-58
`using std::sin; …`).  The core only invokes these functions, so the engine is
parameterised over them. -/
structure Funs where
  sinF : ℚ → ℚ
  cosF : ℚ → ℚ
  tanF : ℚ → ℚ
  asinF : ℚ → ℚ
  acosF : ℚ → ℚ
  atanF : ℚ → ℚ
  expF : ℚ → ℚ
  logF : ℚ → ℚ
  log10F : ℚ → ℚ
  sqrtF : ℚ → ℚ
  absF : ℚ → ℚ
  powF : ℚ → ℚ → ℚ

/-- The unary operator tags (forward.hpp:77-90): `NegOp, InvOp, SinOp, CosOp,
TanOp, ArcSinOp, ArcCosOp, ArcTanOp, ExpOp, LogOp, Log10Op, SqrtOp, AbsOp`. -/
inductive UOp where
  | neg | inv | sin | cos | tan | asin | acos | atan | exp | log | log10 | sqrt | abs
deriving DecidableEq, Repr

/-- Expression trees (forward.hpp:104-183).  Leaves are dual numbers, raw
numeric scalars kept as operands, and the fused `NumberDualMulExpr` (whose
right operand is always a `Dual` by construction, forward.hpp:719-723).
Interior nodes are `UnaryExpr<Op, R>`, `AddExpr`, `MulExpr` and `PowExpr`.
The ternary `NumberDualDualMulExpr` is declared but never produced by any
rewrite rule or consumed by any reduction rule (spec §9, open question), so
it is omitted.  The `Nat` field on each leaf is a ghost identifier used only
to observe reduction order. -/
inductive Expr where
  | dualE (id : Nat) (d : Dual)
  | numE (id : Nat) (c : ℚ)
  | ndmE (id : Nat) (c : ℚ) (d : Dual)
  | unary (op : UOp) (r : Expr)
  | add (l r : Expr)
  | mul (l r : Expr)
  | powE (l r : Expr)
deriving DecidableEq, Repr

/-- Number of nodes of an expression tree (termination measure for the
mutually recursive reduction engine). -/
def Expr.size : Expr → Nat
  | .dualE _ _ => 1
  | .numE _ _ => 1
  | .ndmE _ _ _ => 1
  | .unary _ r => r.size + 1
  | .add l r => l.size + r.size + 1
  | .mul l r => l.size + r.size + 1
  | .powE l r => l.size + r.size + 1

/-- `negate(self)` (forward.hpp:897-902). -/
def negate (s : Dual) : Dual := ⟨-s.val, -s.grad⟩

/-- `scale(self, scalar)` (forward.hpp:904-909): `val *= scalar; grad *= scalar`. -/
def scale (s : Dual) (c : ℚ) : Dual := ⟨s.val * c, s.grad * c⟩

/-- `apply(self, Op{})` for each unary operator (forward.hpp:1455-1552),
with the source's in-place mutation order made explicit (e.g. for `SinOp`
the gradient is scaled by `cos` of the *old* value before the value is
overwritten, while for `ExpOp` the gradient is scaled by the *new* value). -/
def applyOp (F : Funs) : UOp → Dual → Dual
  | .neg, s => ⟨-s.val, -s.grad⟩
  | .inv, s =>
      let v := 1 / s.val
      ⟨v, s.grad * (-v * v)⟩
  | .sin, s => ⟨F.sinF s.val, s.grad * F.cosF s.val⟩
  | .cos, s => ⟨F.cosF s.val, s.grad * -F.sinF s.val⟩
  | .tan, s =>
      let aux := 1 / F.cosF s.val
      ⟨F.tanF s.val, s.grad * (aux * aux)⟩
  | .asin, s =>
      let aux := 1 / F.sqrtF (1 - s.val * s.val)
      ⟨F.asinF s.val, s.grad * aux⟩
  | .acos, s =>
      let aux := -1 / F.sqrtF (1 - s.val * s.val)
      ⟨F.acosF s.val, s.grad * aux⟩
  | .atan, s =>
      let aux := 1 / (1 + s.val * s.val)
      ⟨F.atanF s.val, s.grad * aux⟩
  | .exp, s => ⟨F.expF s.val, s.grad * F.expF s.val⟩
  | .log, s =>
      let aux := 1 / s.val
      ⟨F.logF s.val, s.grad * aux⟩
  | .log10, s =>
      let aux := 1 / ((2.3025850929940456840179914546843 : ℚ) * s.val)
      ⟨F.log10F s.val, s.grad * aux⟩
  | .sqrt, s => ⟨F.sqrtF s.val, s.grad * ((0.5 : ℚ) / F.sqrtF s.val)⟩
  | .abs, s => ⟨F.absF s.val, s.grad * (s.val / F.absF s.val)⟩

/-- The spec's per-operator value/derivative table (spec §4.2, "apply"
table): each operator is given by its new value and a multiplicative
gradient factor.  This is the spec-side counterpart of `applyOp`. -/
def refApply (F : Funs) : UOp → Dual → Dual
  | .neg, s => ⟨-s.val, s.grad * (-1)⟩
  | .inv, s => ⟨1 / s.val, s.grad * (-((1 / s.val) * (1 / s.val)))⟩
  | .sin, s => ⟨F.sinF s.val, s.grad * F.cosF s.val⟩
  | .cos, s => ⟨F.cosF s.val, s.grad * (-F.sinF s.val)⟩
  | .tan, s => ⟨F.tanF s.val, s.grad * ((1 / F.cosF s.val) * (1 / F.cosF s.val))⟩
  | .asin, s => ⟨F.asinF s.val, s.grad * (1 / F.sqrtF (1 - s.val * s.val))⟩
  | .acos, s => ⟨F.acosF s.val, s.grad * (-(1 / F.sqrtF (1 - s.val * s.val)))⟩
  | .atan, s => ⟨F.atanF s.val, s.grad * (1 / (1 + s.val * s.val))⟩
  | .exp, s => ⟨F.expF s.val, s.grad * F.expF s.val⟩
  | .log, s => ⟨F.logF s.val, s.grad * (1 / s.val)⟩
  | .log10, s =>
      ⟨F.log10F s.val, s.grad * (1 / ((2.3025850929940456840179914546843 : ℚ) * s.val))⟩
  | .sqrt, s => ⟨F.sqrtF s.val, s.grad * ((0.5 : ℚ) / F.sqrtF s.val)⟩
  | .abs, s => ⟨F.absF s.val, s.grad * (s.val / F.absF s.val)⟩

/-- Dual-number addition: the body of `assignAdd(self, dual)`
(forward.hpp:1065-1070) and the reference sum rule. -/
def addDual (a b : Dual) : Dual := ⟨a.val + b.val, a.grad + b.grad⟩

/-- Dual-number subtraction: the body of `assignSub(self, dual)`
(forward.hpp:1199-1204). -/
def subDual (a b : Dual) : Dual := ⟨a.val - b.val, a.grad - b.grad⟩

/-- Dual-number product: the body of `assignMul(self, dual)`
(forward.hpp:1252-1258): `grad *= other.val; grad += val * other.grad;
val *= other.val` (the gradient update reads the not-yet-updated `val`). -/
def mulDual (a b : Dual) : Dual := ⟨a.val * b.val, a.grad * b.val + a.val * b.grad⟩

/-- Dual-number quotient: the body of `assignDiv(self, dual)`
(forward.hpp:1361-1368): `aux = 1/other.val; val *= aux;
grad -= val * other.grad; grad *= aux` (the gradient update reads the
already-updated `val`). -/
def divDual (a b : Dual) : Dual :=
  let aux := 1 / b.val
  let v := a.val * aux
  ⟨v, (a.grad - v * b.grad) * aux⟩

/-- Dual-exponent power: the body of `assignPow(self, dual)`
(forward.hpp:1417-1426): `aux1 = pow(val, other.val); aux2 = log(val);
grad *= other.val/val; grad += aux2 * other.grad; grad *= aux1; val = aux1`. -/
def powDualE (F : Funs) (a b : Dual) : Dual :=
  let aux1 := F.powF a.val b.val
  let aux2 := F.logF a.val
  ⟨aux1, (a.grad * (b.val / a.val) + aux2 * b.grad) * aux1⟩

/-- Scalar-exponent power: the body of `assignPow(self, scalar)`
(forward.hpp:1400-1406): `aux = pow(val, other); grad *= other/val * aux;
val = aux`. -/
def assignPowScalar (F : Funs) (s : Dual) (c : ℚ) : Dual :=
  let aux := F.powF s.val c
  ⟨aux, s.grad * (c / s.val * aux)⟩

/-- `assignMul(self, scalar)` (forward.hpp:1236-1241): `val *= other;
grad *= other`. -/
def assignMulScalar (s : Dual) (c : ℚ) : Dual := ⟨s.val * c, s.grad * c⟩

/-- `assignMul(self, NumberDualMulExpr)` (forward.hpp:1286-1294):
`val *= l; grad *= l; grad *= r.val; grad += val * r.grad; val *= r.val`
(the gradient accumulation reads the `val` already scaled by `l`). -/
def assignMulNdm (s : Dual) (c : ℚ) (d : Dual) : Dual :=
  let v1 := s.val * c
  ⟨v1 * d.val, s.grad * c * d.val + v1 * d.grad⟩

/-- `assignAddNegativeDual` (forward.hpp:1097-1102): `val -= tmp.val;
grad -= tmp.grad`. -/
def assignAddNegativeDual (s t : Dual) : Dual := ⟨s.val - t.val, s.grad - t.grad⟩

/-- `assignAddInverseDual` (forward.hpp:1120-1126): `aux = 1/tmp.val;
val += aux; grad -= aux * aux * tmp.grad`. -/
def assignAddInverseDual (s t : Dual) : Dual :=
  let aux := 1 / t.val
  ⟨s.val + aux, s.grad - aux * aux * t.grad⟩

/-- The reference recursive dual-number evaluator: the mathematical value
and directional derivative of a tree, by the standard sum / product /
chain rules (spec §3 invariant and §4.2 rules; for `pow` the spec's
combined rule `grad' = (grad·e.val/val + ln(val)·e.grad)·val'`). -/
def refEval (F : Funs) : Expr → Dual
  | .dualE _ d => d
  | .numE _ c => ⟨c, 0⟩
  | .ndmE _ c d => ⟨c * d.val, c * d.grad⟩
  | .unary op r => refApply F op (refEval F r)
  | .add l r => addDual (refEval F l) (refEval F r)
  | .mul l r => mulDual (refEval F l) (refEval F r)
  | .powE l r => powDualE F (refEval F l) (refEval F r)

/-- `negative(expr)` generator (forward.hpp:578-588): unwraps a `NegExpr`,
otherwise wraps in one. -/
def negative : Expr → Expr
  | .unary .neg r => r
  | e => .unary .neg e

/-- `inverse(expr)` generator (forward.hpp:593-603): unwraps an `InvExpr`,
otherwise wraps in one. -/
def inverseE : Expr → Expr
  | .unary .inv r => r
  | e => .unary .inv e

/-- `operator-(expr)` (forward.hpp:635-657): `-(-expr) => expr`,
`-(scalar*dual) => (-scalar)*dual`, otherwise a `NegExpr`. -/
def negE : Expr → Expr
  | .unary .neg r => r
  | .ndmE id c d => .ndmE id (-c) d
  | e => .unary .neg e

/-- `operator+(expr, expr)` (forward.hpp:668-699):
`(-a) + (-b) => -(a + b)` (via the `operator+` and `operator-` dispatch),
otherwise an `AddExpr`. -/
def addEE : Expr → Expr → Expr
  | .unary .neg a, .unary .neg b => negE (addEE a b)
  | l, r => .add l r

/-- `operator*(scalar, expr)` (forward.hpp:710-741):
`scalar * dual` fuses into a `NumberDualMulExpr`,
`scalar * (scalar*dual)` folds the scalar factor,
`scalar * (-expr) => (-scalar) * expr`, otherwise a `MulExpr` whose left
operand is the scalar kept as a literal operand. -/
def mulSE : ℚ → Expr → Expr
  | c, .dualE id d => .ndmE id c d
  | c, .ndmE id u d => .ndmE id (c * u) d
  | c, .unary .neg r => mulSE (-c) r
  | c, e => .mul (.numE 0 c) e

/-- `operator*(expr, expr)` (forward.hpp:755-777):
`(-a) * (-b) => a * b`, `(1/a) * (1/b) => inverse(a * b)`,
otherwise a `MulExpr`. -/
def mulEE : Expr → Expr → Expr
  | .unary .neg a, .unary .neg b => mulEE a b
  | .unary .inv a, .unary .inv b => inverseE (mulEE a b)
  | l, r => .mul l r

/-- `operator*(expr, scalar)` (forward.hpp:746-750): canonicalised to
`scalar * expr`. -/
def mulES (l : Expr) (c : ℚ) : Expr := mulSE c l

/-- `operator-(l, r)` (forward.hpp:788-792): `l + (-r)`. -/
def subEE (l r : Expr) : Expr := addEE l (negE r)

/-- `operator/(expr, expr)` (forward.hpp:803-807): `l * inverse(r)`. -/
def divEE (l r : Expr) : Expr := mulEE l (inverseE r)

/-- `operator/(scalar, expr)` (forward.hpp:812-816): `l * inverse(r)`,
dispatched through `operator*(scalar, expr)`. -/
def divSE (c : ℚ) (r : Expr) : Expr := mulSE c (inverseE r)

/-- `operator/(expr, scalar)` (forward.hpp:821-826): `l * inverse<T>(r)`
with `inverse<T>(scalar) = 1/scalar`, canonicalised to `scalar * expr`. -/
def divES (l : Expr) (c : ℚ) : Expr := mulSE (1 / c) l

/-- `pow(l, r)` (forward.hpp:864): a dedicated `PowExpr` node, no rewrite. -/
def powC (l r : Expr) : Expr := .powE l r

mutual

/-- `assign(self, other)` without scratch (forward.hpp:928-1032): scalar
source resets `grad` to `0` (928); dual source copies both fields (944);
`NumberDualMulExpr` assigns the dual then `scale`s (960); a unary node
assigns the operand then `apply`s the operator (976); `AddExpr` assigns
from `r` then `assignAdd`s `l` (993); `MulExpr` assigns from `r` then
`assignMul`s `l` (1010); `PowExpr` assigns from `l` then `assignPow`s `r`
(1027).  Returns the resulting dual and the leaf-consumption trace. -/
def assign (F : Funs) (self : Dual) (e : Expr) : Dual × List Nat :=
  match e with
  | .numE id c => (⟨c, 0⟩, [id])
  | .dualE id d => (d, [id])
  | .ndmE id c d => (scale d c, [id])
  | .unary op r =>
      let s := assign F self r
      (applyOp F op s.1, s.2)
  | .add l r =>
      let s1 := assign F self r
      let s2 := assignAdd F s1.1 l
      (s2.1, s1.2 ++ s2.2)
  | .mul l r =>
      let s1 := assign F self r
      let s2 := assignMul F s1.1 l
      (s2.1, s1.2 ++ s2.2)
  | .powE l r =>
      let s1 := assign F self l
      let s2 := assignPow F s1.1 r
      (s2.1, s1.2 ++ s2.2)
termination_by 10 * e.size
decreasing_by all_goals (first | (simp [Expr.size]; omega) | simp [Expr.size] | omega)

/-- `assign(self, other, tmp)` with scratch (forward.hpp:935-1038).  The
scalar/dual/`NumberDualMulExpr` shapes delegate to the simple shape and
leave `tmp` alone; the recursive shapes thread `tmp` down one branch.
Returns `(self, tmp, trace)`. -/
def assignTmp (F : Funs) (self tmp : Dual) (e : Expr) : Dual × Dual × List Nat :=
  match e with
  | .numE id c => (⟨c, 0⟩, tmp, [id])
  | .dualE id d => (d, tmp, [id])
  | .ndmE id c d => (scale d c, tmp, [id])
  | .unary op r =>
      let s := assignTmp F self tmp r
      (applyOp F op s.1, s.2.1, s.2.2)
  | .add l r =>
      let s1 := assignTmp F self tmp r
      let s2 := assignAddTmp F s1.1 s1.2.1 l
      (s2.1, s2.2.1, s1.2.2 ++ s2.2.2)
  | .mul l r =>
      let s1 := assignTmp F self tmp r
      let s2 := assignMulTmp F s1.1 s1.2.1 l
      (s2.1, s2.2.1, s1.2.2 ++ s2.2.2)
  | .powE l r =>
      let s1 := assignTmp F self tmp l
      let s2 := assignPowTmp F s1.1 s1.2.1 r
      (s2.1, s2.2.1, s1.2.2 ++ s2.2.2)
termination_by 10 * e.size
decreasing_by all_goals (first | (simp [Expr.size]; omega) | simp [Expr.size] | omega)

/-- `assignAdd(self, other)` without scratch (forward.hpp:1050-1166):
scalar adds to `val` only (1050); dual adds both fields (1065);
`NumberDualMulExpr` fuses the product rule for a constant factor (1081);
`NegExpr` fully evaluates the operand and subtracts field-by-field (1104);
`InvExpr` fully evaluates the operand and applies the inverse rule (1128);
`AddExpr` accumulates `l` first, then `r` (1144); every other node is
reduced into a default-constructed temporary and then added (1161). -/
def assignAdd (F : Funs) (self : Dual) (e : Expr) : Dual × List Nat :=
  match e with
  | .numE id c => (⟨self.val + c, self.grad⟩, [id])
  | .dualE id d => (addDual self d, [id])
  | .ndmE id c d => (⟨self.val + c * d.val, self.grad + c * d.grad⟩, [id])
  | .unary .neg r =>
      let t := evalE F r
      (assignAddNegativeDual self t.1, t.2)
  | .unary .inv r =>
      let t := evalE F r
      (assignAddInverseDual self t.1, t.2)
  | .add l r =>
      let s1 := assignAdd F self l
      let s2 := assignAdd F s1.1 r
      (s2.1, s1.2 ++ s2.2)
  | e =>
      let s := assignAddTmp F self ⟨0, 0⟩ e
      (s.1, s.2.2)
termination_by 10 * e.size + 2
decreasing_by all_goals (first | (simp [Expr.size]; omega) | simp [Expr.size] | omega)

/-- `assignAdd(self, other, tmp)` with scratch (forward.hpp:1056-1173):
as `assignAdd`, but `NegExpr`/`InvExpr` evaluate the operand into `tmp`
(1111, 1135) and the generic shape assigns into `tmp` and then adds it
(1168). -/
def assignAddTmp (F : Funs) (self tmp : Dual) (e : Expr) : Dual × Dual × List Nat :=
  match e with
  | .numE id c => (⟨self.val + c, self.grad⟩, tmp, [id])
  | .dualE id d => (addDual self d, tmp, [id])
  | .ndmE id c d => (⟨self.val + c * d.val, self.grad + c * d.grad⟩, tmp, [id])
  | .unary .neg r =>
      let t := evalE F r
      (assignAddNegativeDual self t.1, t.1, t.2)
  | .unary .inv r =>
      let t := evalE F r
      (assignAddInverseDual self t.1, t.1, t.2)
  | .add l r =>
      let s1 := assignAddTmp F self tmp l
      let s2 := assignAddTmp F s1.1 s1.2.1 r
      (s2.1, s2.2.1, s1.2.2 ++ s2.2.2)
  | e =>
      let t := assign F tmp e
      (addDual self t.1, t.1, t.2)
termination_by 10 * e.size + 1
decreasing_by all_goals (first | (simp [Expr.size]; omega) | simp [Expr.size] | omega)

/-- `assignMul(self, other)` without scratch (forward.hpp:1236-1327):
scalar scales both fields (1236); dual applies the product rule (1252);
`NegExpr` multiplies by the operand then negates (1269);
`NumberDualMulExpr` applies the fused rule (1286); `MulExpr` multiplies by
`l` first, then by `r` (1305); every other node is reduced into a
default-constructed temporary and then multiplied (1322). -/
def assignMul (F : Funs) (self : Dual) (e : Expr) : Dual × List Nat :=
  match e with
  | .numE id c => (assignMulScalar self c, [id])
  | .dualE id d => (mulDual self d, [id])
  | .unary .neg r =>
      let s := assignMul F self r
      (negate s.1, s.2)
  | .ndmE id c d => (assignMulNdm self c d, [id])
  | .mul l r =>
      let s1 := assignMul F self l
      let s2 := assignMul F s1.1 r
      (s2.1, s1.2 ++ s2.2)
  | e =>
      let s := assignMulTmp F self ⟨0, 0⟩ e
      (s.1, s.2.2)
termination_by 10 * e.size + 2
decreasing_by all_goals (first | (simp [Expr.size]; omega) | simp [Expr.size] | omega)

/-- `assignMul(self, other, tmp)` with scratch (forward.hpp:1243-1334). -/
def assignMulTmp (F : Funs) (self tmp : Dual) (e : Expr) : Dual × Dual × List Nat :=
  match e with
  | .numE id c => (assignMulScalar self c, tmp, [id])
  | .dualE id d => (mulDual self d, tmp, [id])
  | .unary .neg r =>
      let s := assignMulTmp F self tmp r
      (negate s.1, s.2.1, s.2.2)
  | .ndmE id c d => (assignMulNdm self c d, tmp, [id])
  | .mul l r =>
      let s1 := assignMulTmp F self tmp l
      let s2 := assignMulTmp F s1.1 s1.2.1 r
      (s2.1, s2.2.1, s1.2.2 ++ s2.2.2)
  | e =>
      let t := assign F tmp e
      (mulDual self t.1, t.1, t.2)
termination_by 10 * e.size + 1
decreasing_by all_goals (first | (simp [Expr.size]; omega) | simp [Expr.size] | omega)

/-- `assignPow(self, other)` without scratch (forward.hpp:1400-1441):
scalar exponent applies `grad *= other/val * pow(val, other)` (1400); dual
exponent applies the combined base/exponent chain rule (1417); any other
node is evaluated and the dual-exponent rule applied (1437). -/
def assignPow (F : Funs) (self : Dual) (e : Expr) : Dual × List Nat :=
  match e with
  | .numE id c => (assignPowScalar F self c, [id])
  | .dualE id d => (powDualE F self d, [id])
  | e =>
      let t := evalE F e
      (powDualE F self t.1, t.2)
termination_by 10 * e.size + 2
decreasing_by all_goals (first | (simp [Expr.size]; omega) | simp [Expr.size] | omega)

/-- `assignPow(self, other, tmp)` with scratch (forward.hpp:1408-1448):
the generic shape assigns the exponent into `tmp` first (1443). -/
def assignPowTmp (F : Funs) (self tmp : Dual) (e : Expr) : Dual × Dual × List Nat :=
  match e with
  | .numE id c => (assignPowScalar F self c, tmp, [id])
  | .dualE id d => (powDualE F self d, tmp, [id])
  | e =>
      let t := assign F tmp e
      (powDualE F self t.1, t.1, t.2)

/-- `eval(expr)` (forward.hpp:453-463): a dual passes through (by value),
any other expression constructs a fresh dual, whose constructor
(forward.hpp:392-396) runs `assign` on its (fully overwritten) storage. -/
def evalE (F : Funs) (e : Expr) : Dual × List Nat :=
  match e with
  | .dualE id d => (d, [id])
  | e => assign F ⟨0, 0⟩ e
termination_by 10 * e.size + 1
decreasing_by all_goals (first | (simp [Expr.size]; omega) | simp [Expr.size] | omega)

end

/-- `assignSub(self, other)` without scratch (forward.hpp:1184-1219):
scalar subtracts from `val` only (1184); dual subtracts both fields
(1199); any other expression delegates to `assignAdd(self, negative(other))`
(1215). -/
def assignSub (F : Funs) (self : Dual) (e : Expr) : Dual × List Nat :=
  match e with
  | .numE id c => (⟨self.val - c, self.grad⟩, [id])
  | .dualE id d => (subDual self d, [id])
  | e => assignAdd F self (negative e)

/-- `assignSub(self, other, tmp)` with scratch (forward.hpp:1190-1225). -/
def assignSubTmp (F : Funs) (self tmp : Dual) (e : Expr) : Dual × Dual × List Nat :=
  match e with
  | .numE id c => (⟨self.val - c, self.grad⟩, tmp, [id])
  | .dualE id d => (subDual self d, tmp, [id])
  | e => assignAddTmp F self tmp (negative e)

/-- `assignDiv(self, other)` without scratch (forward.hpp:1345-1383):
scalar multiplies by `1/other` (1345); dual applies the quotient rule
(1361); any other expression delegates to `assignMul(self, inverse(other))`
(1379). -/
def assignDiv (F : Funs) (self : Dual) (e : Expr) : Dual × List Nat :=
  match e with
  | .numE id c => (assignMulScalar self (1 / c), [id])
  | .dualE id d => (divDual self d, [id])
  | e => assignMul F self (inverseE e)

/-- `assignDiv(self, other, tmp)` with scratch (forward.hpp:1352-1389). -/
def assignDivTmp (F : Funs) (self tmp : Dual) (e : Expr) : Dual × Dual × List Nat :=
  match e with
  | .numE id c => (assignMulScalar self (1 / c), tmp, [id])
  | .dualE id d => (divDual self d, tmp, [id])
  | e => assignMulTmp F self tmp (inverseE e)

/-- The scalar constructor `Dual(const U& val) : val(val), grad(0)`
(forward.hpp:389-390). -/
def dualOfScalar (c : ℚ) : Dual := ⟨c, 0⟩

/-- The default constructor `Dual() : Dual(0.0)` (forward.hpp:387): it
delegates to the scalar constructor at `0.0`. -/
def dualDefault : Dual := dualOfScalar 0

/-- Aliased execution of `x += -x`.  `operator+=` (forward.hpp:405-410)
dispatches to `assignAdd(self, NegExpr)` (forward.hpp:1104-1108), where
`other.r` is the same variable as `self`.  The body first copies the
current `x` by value (`eval` of a dual, forward.hpp:453-457, returns by
value because the `auto` return type decays the reference), and only then
mutates `self` through `assignAddNegativeDual` (forward.hpp:1097-1102).
Every read of `x` precedes every write of `x`, so the straight-line trace
of the execution is: -/
def xPlusNegX (x : Dual) : Dual :=
  let t : Dual := x
  ⟨x.val - t.val, x.grad - t.grad⟩

/-- Aliased execution of `x += 1/x`.  `1/x` constructs
`MulExpr{1.0, InvExpr{x}}` (forward.hpp:812-816 then 710-714), so
`operator+=` dispatches to the generic `assignAdd` (forward.hpp:1161-1173):
a default temporary is created, `assign(tmp, other)` reduces the whole
source tree into `tmp` — copying the aliased `x` (forward.hpp:944-949),
applying `InvOp` (forward.hpp:1462-1467), and the scalar multiplication
(forward.hpp:1236-1241) — and only then is `self` mutated by
`assignAdd(self, tmp)` (forward.hpp:1065-1070).  Again every read of `x`
precedes every write of `x`: -/
def xPlusInvX (F : Funs) (x : Dual) : Dual :=
  let tmp1 : Dual := x
  let tmp2 : Dual := applyOp F .inv tmp1
  let tmp3 : Dual := assignMulScalar tmp2 1
  addDual x tmp3

/-- The `derivative(f, wrt(x), x)` pipeline (forward.hpp:541-548) at arity
one and first order: seed `x.grad = 1` (forward.hpp:500-504, 485-489),
evaluate `f` at the seeded variable (the returned dual is constructed from
the expression tree, forward.hpp:392-396), unseed (forward.hpp:512-516),
and return `derivative<1>(res) = res.grad` (forward.hpp:530-539).  Returns
the derivative together with the unseeded variable. -/
def derivCall1 (F : Funs) (f : Dual → Expr) (x : Dual) : ℚ × Dual :=
  let xs : Dual := ⟨x.val, 1⟩
  let res : Dual := (evalE F (f xs)).1
  let xu : Dual := ⟨xs.val, 0⟩
  (res.grad, xu)

/-- A concrete instance of the external math library (every function is the
zero function); used to evaluate the engine at closed inputs. -/
def F0 : Funs :=
  ⟨fun _ => 0, fun _ => 0, fun _ => 0, fun _ => 0, fun _ => 0, fun _ => 0,
   fun _ => 0, fun _ => 0, fun _ => 0, fun _ => 0, fun _ => 0, fun _ _ => 0⟩

/-- A concrete computable power function on `ℚ` (numerator-exponent power),
used to instantiate `Funs.powF` at closed inputs. -/
def qpowNum (u p : ℚ) : ℚ := u ^ p.num.toNat

/-- `F0` with `qpowNum` as the power function. -/
def Fpow : Funs :=
  ⟨fun _ => 0, fun _ => 0, fun _ => 0, fun _ => 0, fun _ => 0, fun _ => 0,
   fun _ => 0, fun _ => 0, fun _ => 0, fun _ => 0, fun _ => 0, qpowNum⟩

/-- Nested dual values, the untyped form of `HigherOrderDual<N>`
(forward.hpp:1567-1587): `num` is the order-0 scalar (`double`), and
`dual v g` is an order-(N+1) dual whose `val` and `grad` members are of
order N. -/
inductive ND where
  | num (q : ℚ)
  | dual (v g : ND)
deriving DecidableEq, Repr

/-- Member access `.val` on a nested dual (identity junk on a scalar,
where the C++ member does not exist). -/
def ND.vf : ND → ND
  | .num q => .num q
  | .dual v _ => v

/-- Member access `.grad` on a nested dual (identity junk on a scalar). -/
def ND.gf : ND → ND
  | .num q => .num q
  | .dual _ g => g

/-- `derivative<order>(dual)` (forward.hpp:530-539): order 0 returns
`dual.val` (the first `if constexpr` returns), order 1 returns
`dual.grad`, and any higher order recurses into the `grad` member. -/
def derivativeN : Nat → ND → ND
  | 0, d => d.vf
  | 1, d => d.gf
  | n + 2, d => derivativeN (n + 1) d.gf

/-- Scalar assignment to a (possibly nested) dual,
`Dual::operator=(number)` via `assign(self, scalar)` (forward.hpp:398-403,
928-933): `val = other` (recursively a scalar assignment when `val` is
itself a dual) and `grad = 0.0` (likewise recursive). -/
def ND.setScalar (c : ℚ) : ND → ND
  | .num _ => .num c
  | .dual v g => .dual (v.setScalar c) (g.setScalar 0)

/-- The write performed by `internal::seed<num>` on the variable at
position `i` of the `wrt` tuple: descend `i` `.val` members, then assign
the scalar `num` to the `grad` member (forward.hpp:485-497).  Junk
(identity) on a scalar, where the C++ member access would not compile. -/
def seedAt (c : ℚ) : Nat → ND → ND
  | 0, .dual v g => .dual v (g.setScalar c)
  | 0, .num q => .num q
  | i + 1, .dual v g => .dual (seedAt c i v) g
  | i + 1, .num q => .num q

/-- Replace the `.val` member (used to model that the recursive
`seed<num>(duals.val...)` call mutates the tail variables' `val` members
in place). -/
def ND.withVf (v : ND) : ND → ND
  | .num q => .num q
  | .dual _ g => .dual v g

/-- `internal::seed<num>(dual, duals...)` (forward.hpp:485-497): the
variadic recursion seeds the `.val` members of the tail variables, then
sets the head's `grad = num`.  `seed(wrt)` instantiates this with
`num = 1`, `unseed(wrt)` with `num = 0` (forward.hpp:500-522). -/
def seedMany (c : ℚ) : List ND → List ND
  | [] => []
  | d :: rest =>
      let pre := seedMany c (rest.map ND.vf)
      seedAt c 0 d :: List.zipWith ND.withVf pre rest
termination_by l => l.length
decreasing_by simp

/-- Index-annotated form of the seeding write: variable `i` of the tuple
is seeded at `.val`-depth `k + i` (spec §4.3: "seeding recurses into the
value channel of all-but-the-last variable"). -/
def seedIdx (c : ℚ) (k : Nat) : List ND → List ND
  | [] => []
  | d :: rest => seedAt c k d :: seedIdx c (k + 1) rest

/-- `val(x)` (forward.hpp:465-481): recursively extracts the innermost
scalar value of a nested dual. -/
def ND.valRead : ND → ℚ
  | .num q => q
  | .dual v _ => v.valRead

/-- The `derivative(f, wrt, args...)` pipeline (forward.hpp:541-548) over a
tuple of (possibly nested, possibly aliased into `f`'s arguments)
variables: seed with 1, evaluate `f`, unseed (seed with 0), and peel
`N = tuple_size` derivatives off the result.  Returns the result together
with the post-call state of the variables. -/
def derivCallN (f : List ND → ND) (vars : List ND) : ND × List ND :=
  let seeded := seedMany 1 vars
  let res := f seeded
  let post := seedMany 0 seeded
  (derivativeN vars.length res, post)

/-- The bundle of reduction-engine correctness statements proved by one
simultaneous induction: each `assign`/`assignAdd`/`assignMul`/`assignPow`
shape (simple and scratch) agrees with the reference evaluator `refEval`
combined by the corresponding dual-number operation. -/
structure EnginePack (F : Funs) (e : Expr) : Prop where
  hassign : ∀ self, (assign F self e).1 = refEval F e
  hassignTmp : ∀ self tmp, (assignTmp F self tmp e).1 = refEval F e
  hadd : ∀ self, (assignAdd F self e).1 = addDual self (refEval F e)
  haddTmp : ∀ self tmp, (assignAddTmp F self tmp e).1 = addDual self (refEval F e)
  hmul : ∀ self, (assignMul F self e).1 = mulDual self (refEval F e)
  hmulTmp : ∀ self tmp, (assignMulTmp F self tmp e).1 = mulDual self (refEval F e)
  hpow : ∀ self, (assignPow F self e).1 = powDualE F self (refEval F e)
  hpowTmp : ∀ self tmp, (assignPowTmp F self tmp e).1 = powDualE F self (refEval F e)
  heval : (evalE F e).1 = refEval F e

/-- Every expression tree has at least one node. -/
theorem Expr.size_pos (e : Expr) : 0 < e.size := by
  cases e <;> simp [Expr.size]

theorem applyOp_eq_refApply (F : Funs) (op : UOp) (s : Dual) :
    applyOp F op s = refApply F op s := by
  cases op <;> simp [applyOp, refApply, Dual.mk.injEq] <;> ring

theorem enginePackAux (F : Funs) : ∀ (n : Nat) (e : Expr), e.size ≤ n → EnginePack F e := by
  intro n
  induction n with
  | zero => intro e he; have := Expr.size_pos e; omega
  | succ n ih =>
    intro e he
    have hassign : ∀ self, (assign F self e).1 = refEval F e := by
      cases e with
      | dualE id d => intro self; simp [assign, refEval]
      | numE id c => intro self; simp [assign, refEval]
      | ndmE id c d => intro self; simp [assign, refEval, scale, Dual.mk.injEq]; constructor <;> ring
      | unary op r =>
          have hr := ih r (by simp [Expr.size] at he; omega)
          intro self
          simp [assign, refEval, hr.hassign, applyOp_eq_refApply]
      | add l r =>
          have hl := ih l (by have := Expr.size_pos r; simp [Expr.size] at he; omega)
          have hr := ih r (by have := Expr.size_pos l; simp [Expr.size] at he; omega)
          intro self
          simp [assign, refEval, hr.hassign, hl.hadd, addDual, Dual.mk.injEq]
          constructor <;> ring
      | mul l r =>
          have hl := ih l (by have := Expr.size_pos r; simp [Expr.size] at he; omega)
          have hr := ih r (by have := Expr.size_pos l; simp [Expr.size] at he; omega)
          intro self
          simp [assign, refEval, hr.hassign, hl.hmul, mulDual, Dual.mk.injEq]
          constructor <;> ring
      | powE l r =>
          have hl := ih l (by have := Expr.size_pos r; simp [Expr.size] at he; omega)
          have hr := ih r (by have := Expr.size_pos l; simp [Expr.size] at he; omega)
          intro self
          simp [assign, refEval, hl.hassign, hr.hpow]
    have hassignTmp : ∀ self tmp, (assignTmp F self tmp e).1 = refEval F e := by
      cases e with
      | dualE id d => intro self tmp; simp [assignTmp, refEval]
      | numE id c => intro self tmp; simp [assignTmp, refEval]
      | ndmE id c d => intro self tmp; simp [assignTmp, refEval, scale, Dual.mk.injEq]; constructor <;> ring
      | unary op r =>
          have hr := ih r (by simp [Expr.size] at he; omega)
          intro self tmp
          simp [assignTmp, refEval, hr.hassignTmp, applyOp_eq_refApply]
      | add l r =>
          have hl := ih l (by have := Expr.size_pos r; simp [Expr.size] at he; omega)
          have hr := ih r (by have := Expr.size_pos l; simp [Expr.size] at he; omega)
          intro self tmp
          simp [assignTmp, refEval, hr.hassignTmp, hl.haddTmp, addDual, Dual.mk.injEq]
          constructor <;> ring
      | mul l r =>
          have hl := ih l (by have := Expr.size_pos r; simp [Expr.size] at he; omega)
          have hr := ih r (by have := Expr.size_pos l; simp [Expr.size] at he; omega)
          intro self tmp
          simp [assignTmp, refEval, hr.hassignTmp, hl.hmulTmp, mulDual, Dual.mk.injEq]
          constructor <;> ring
      | powE l r =>
          have hl := ih l (by have := Expr.size_pos r; simp [Expr.size] at he; omega)
          have hr := ih r (by have := Expr.size_pos l; simp [Expr.size] at he; omega)
          intro self tmp
          simp [assignTmp, refEval, hl.hassignTmp, hr.hpowTmp]
    have heval : (evalE F e).1 = refEval F e := by
      cases e <;> simp [evalE, refEval] <;> rw [hassign ⟨0, 0⟩] <;> simp [refEval]
    have haddTmp : ∀ self tmp, (assignAddTmp F self tmp e).1 = addDual self (refEval F e) := by
      cases e with
      | dualE id d => intro self tmp; simp [assignAddTmp, refEval, addDual]
      | numE id c => intro self tmp; simp [assignAddTmp, refEval, addDual]
      | ndmE id c d => intro self tmp; simp [assignAddTmp, refEval, addDual]
      | unary op r =>
          have hr := ih r (by simp [Expr.size] at he; omega)
          intro self tmp
          cases op <;>
            simp [assignAddTmp, refEval, hr.heval, hassign, assignAddNegativeDual,
              assignAddInverseDual, addDual, refApply, Dual.mk.injEq] <;>
            (try constructor) <;> (try ring)
      | add l r =>
          have hl := ih l (by have := Expr.size_pos r; simp [Expr.size] at he; omega)
          have hr := ih r (by have := Expr.size_pos l; simp [Expr.size] at he; omega)
          intro self tmp
          simp [assignAddTmp, refEval, hl.haddTmp, hr.haddTmp, addDual, Dual.mk.injEq]
          constructor <;> ring
      | mul l r =>
          intro self tmp
          simp [assignAddTmp, hassign]
      | powE l r =>
          intro self tmp
          simp [assignAddTmp, hassign]
    have hadd : ∀ self, (assignAdd F self e).1 = addDual self (refEval F e) := by
      cases e with
      | dualE id d => intro self; simp [assignAdd, refEval, addDual]
      | numE id c => intro self; simp [assignAdd, refEval, addDual]
      | ndmE id c d => intro self; simp [assignAdd, refEval, addDual]
      | unary op r =>
          have hr := ih r (by simp [Expr.size] at he; omega)
          intro self
          cases op <;>
            simp [assignAdd, refEval, hr.heval, haddTmp, assignAddNegativeDual,
              assignAddInverseDual, addDual, refApply, Dual.mk.injEq] <;>
            (try constructor) <;> (try ring)
      | add l r =>
          have hl := ih l (by have := Expr.size_pos r; simp [Expr.size] at he; omega)
          have hr := ih r (by have := Expr.size_pos l; simp [Expr.size] at he; omega)
          intro self
          simp [assignAdd, refEval, hl.hadd, hr.hadd, addDual, Dual.mk.injEq]
          constructor <;> ring
      | mul l r =>
          intro self
          simp [assignAdd, haddTmp]
      | powE l r =>
          intro self
          simp [assignAdd, haddTmp]
    have hmulTmp : ∀ self tmp, (assignMulTmp F self tmp e).1 = mulDual self (refEval F e) := by
      cases e with
      | dualE id d => intro self tmp; simp [assignMulTmp, refEval, mulDual]
      | numE id c =>
          intro self tmp
          simp [assignMulTmp, refEval, mulDual, assignMulScalar, Dual.mk.injEq]
      | ndmE id c d =>
          intro self tmp
          simp [assignMulTmp, refEval, mulDual, assignMulNdm, Dual.mk.injEq]
          constructor <;> ring
      | unary op r =>
          have hr := ih r (by simp [Expr.size] at he; omega)
          intro self tmp
          cases op <;>
            simp [assignMulTmp, refEval, hr.hmulTmp, hassign, negate, mulDual,
              refApply, Dual.mk.injEq] <;>
            (try constructor) <;> (try ring)
      | mul l r =>
          have hl := ih l (by have := Expr.size_pos r; simp [Expr.size] at he; omega)
          have hr := ih r (by have := Expr.size_pos l; simp [Expr.size] at he; omega)
          intro self tmp
          simp [assignMulTmp, refEval, hl.hmulTmp, hr.hmulTmp, mulDual, Dual.mk.injEq]
          constructor <;> ring
      | add l r =>
          intro self tmp
          simp [assignMulTmp, hassign]
      | powE l r =>
          intro self tmp
          simp [assignMulTmp, hassign]
    have hmul : ∀ self, (assignMul F self e).1 = mulDual self (refEval F e) := by
      cases e with
      | dualE id d => intro self; simp [assignMul, refEval, mulDual]
      | numE id c =>
          intro self
          simp [assignMul, refEval, mulDual, assignMulScalar, Dual.mk.injEq]
      | ndmE id c d =>
          intro self
          simp [assignMul, refEval, mulDual, assignMulNdm, Dual.mk.injEq]
          constructor <;> ring
      | unary op r =>
          have hr := ih r (by simp [Expr.size] at he; omega)
          intro self
          cases op <;>
            simp [assignMul, refEval, hr.hmul, hmulTmp, negate, mulDual,
              refApply, Dual.mk.injEq] <;>
            (try constructor) <;> (try ring)
      | mul l r =>
          have hl := ih l (by have := Expr.size_pos r; simp [Expr.size] at he; omega)
          have hr := ih r (by have := Expr.size_pos l; simp [Expr.size] at he; omega)
          intro self
          simp [assignMul, refEval, hl.hmul, hr.hmul, mulDual, Dual.mk.injEq]
          constructor <;> ring
      | add l r =>
          intro self
          simp [assignMul, hmulTmp]
      | powE l r =>
          intro self
          simp [assignMul, hmulTmp]
    have hpowTmp : ∀ self tmp, (assignPowTmp F self tmp e).1 = powDualE F self (refEval F e) := by
      cases e with
      | numE id c =>
          intro self tmp
          simp [assignPowTmp, refEval, powDualE, assignPowScalar, Dual.mk.injEq]
          ring
      | dualE id d => intro self tmp; simp [assignPowTmp, refEval]
      | ndmE id c d => intro self tmp; simp [assignPowTmp, hassign]
      | unary op r => intro self tmp; simp [assignPowTmp, hassign]
      | add l r => intro self tmp; simp [assignPowTmp, hassign]
      | mul l r => intro self tmp; simp [assignPowTmp, hassign]
      | powE l r => intro self tmp; simp [assignPowTmp, hassign]
    have hpow : ∀ self, (assignPow F self e).1 = powDualE F self (refEval F e) := by
      cases e with
      | numE id c =>
          intro self
          simp [assignPow, refEval, powDualE, assignPowScalar, Dual.mk.injEq]
          ring
      | dualE id d => intro self; simp [assignPow, refEval]
      | ndmE id c d => intro self; simp [assignPow, heval]
      | unary op r => intro self; simp [assignPow, heval]
      | add l r => intro self; simp [assignPow, heval]
      | mul l r => intro self; simp [assignPow, heval]
      | powE l r => intro self; simp [assignPow, heval]
    exact ⟨hassign, hassignTmp, hadd, haddTmp, hmul, hmulTmp, hpow, hpowTmp, heval⟩

/-- The engine pack at an arbitrary expression. -/
theorem engine (F : Funs) (e : Expr) : EnginePack F e :=
  enginePackAux F e.size e le_rfl

/-- Claim C1: For every expression tree built from duals, scalars and the
supported operators, reducing the tree into a dual — via `assign` (hence
via `operator=` and compound construction, forward.hpp:398-403) or via the
expression constructor / `eval` (forward.hpp:392-396, 453-463) — produces
a dual whose `val` and `grad` fields equal the value and directional
derivative computed by the reference recursive dual-number evaluator
`refEval` (standard sum/product/quotient/chain rules). -/
theorem spec_c1_reduction_matches_reference (F : Funs) (self : Dual) (e : Expr) :
    (assign F self e).1 = refEval F e ∧ (evalE F e).1 = refEval F e :=
  ⟨(engine F e).hassign self, (engine F e).heval⟩

/-- Claim C2: For each of the six reduction operations, the simple call shape
and the scratch-accepting call shape produce identical `val` and `grad` in
the target, for every target dual, every initial scratch content and every
source operand. -/
theorem spec_c2_scratch_shape_equivalence (F : Funs) (self tmp : Dual) (e : Expr) :
    (assignTmp F self tmp e).1 = (assign F self e).1
  ∧ (assignAddTmp F self tmp e).1 = (assignAdd F self e).1
  ∧ (assignSubTmp F self tmp e).1 = (assignSub F self e).1
  ∧ (assignMulTmp F self tmp e).1 = (assignMul F self e).1
  ∧ (assignDivTmp F self tmp e).1 = (assignDiv F self e).1
  ∧ (assignPowTmp F self tmp e).1 = (assignPow F self e).1 := by
  refine ⟨?_, ?_, ?_, ?_, ?_, ?_⟩
  · rw [(engine F e).hassignTmp, (engine F e).hassign]
  · rw [(engine F e).haddTmp, (engine F e).hadd]
  · cases e <;> simp [assignSub, assignSubTmp] <;>
      rw [(engine F _).haddTmp, (engine F _).hadd]
  · rw [(engine F e).hmulTmp, (engine F e).hmul]
  · cases e <;> simp [assignDiv, assignDivTmp] <;>
      rw [(engine F _).hmulTmp, (engine F _).hmul]
  · rw [(engine F e).hpowTmp, (engine F e).hpow]

/-- **C3 (counterexample).** The claim states that the accumulation path
`assignAdd` applied to an addition node also reduces the right operand
first.  At the concrete node `dual#1 + dual#2` the engine consumes leaf 1
before leaf 2 (forward.hpp:1144-1148 accumulates `other.l` first), not
leaf 2 before leaf 1 as the claim requires. -/
theorem spec_c3_counterexample :
    (assignAdd F0 ⟨0, 0⟩ (.add (.dualE 1 ⟨5, 1⟩) (.dualE 2 ⟨7, 2⟩))).2 = [1, 2]
  ∧ ([1, 2] : List Nat) ≠ [2, 1] := by
  constructor
  · simp [assignAdd, addDual]
  · decide

/-- **C3 (amended).** The plain `assign` reduction of an addition or
multiplication node reduces the right operand into the target first and
then accumulates the left operand (forward.hpp:993-1022); but the
accumulation paths `assignAdd` on an addition node and `assignMul` on a
multiplication node process the left operand first and then the right
operand (forward.hpp:1144-1156, 1305-1317).  Stated on the
leaf-consumption traces, together with the two-leaf instances making the
orders explicit. -/
theorem spec_c3_reduction_order (F : Funs) (self : Dual) (l r : Expr) :
    (assign F self (.add l r)).2 = (assign F self r).2 ++ (assignAdd F (assign F self r).1 l).2
  ∧ (assign F self (.mul l r)).2 = (assign F self r).2 ++ (assignMul F (assign F self r).1 l).2
  ∧ (assignAdd F self (.add l r)).2 =
      (assignAdd F self l).2 ++ (assignAdd F (assignAdd F self l).1 r).2
  ∧ (assignMul F self (.mul l r)).2 =
      (assignMul F self l).2 ++ (assignMul F (assignMul F self l).1 r).2
  ∧ (∀ i j d1 d2, (assign F self (.add (.dualE i d1) (.dualE j d2))).2 = [j, i])
  ∧ (∀ i j d1 d2, (assignAdd F self (.add (.dualE i d1) (.dualE j d2))).2 = [i, j])
  ∧ (∀ i j d1 d2, (assign F self (.mul (.dualE i d1) (.dualE j d2))).2 = [j, i])
  ∧ (∀ i j d1 d2, (assignMul F self (.mul (.dualE i d1) (.dualE j d2))).2 = [i, j]) := by
  refine ⟨?_, ?_, ?_, ?_, ?_, ?_, ?_, ?_⟩ <;> (try intro i j d1 d2) <;>
    simp [assign, assignAdd, assignMul]

/-- Claim C7: The construction-time rewrite `(-a) * (-b) => a * b`
(forward.hpp:764-768): for all expressions `a`, `b`, the product of the two
negation nodes evaluates identically to the product `a * b` built by
`operator*`, and the rewrite is sound — the unrewritten tree
`NegExpr{a} * NegExpr{b}` has the same reference value and derivative as
`a * b` (sign cancellation). -/
theorem spec_c7_neg_neg_product (F : Funs) (a b : Expr) :
    (evalE F (mulEE (.unary .neg a) (.unary .neg b))).1 = (evalE F (mulEE a b)).1
  ∧ refEval F (.mul (.unary .neg a) (.unary .neg b)) = refEval F (.mul a b) := by
  constructor
  · rfl
  · simp [refEval, refApply, mulDual, Dual.mk.injEq]
    try (constructor <;> ring)

/-- Claim C9: A default-constructed dual (forward.hpp:387, delegating to the
scalar constructor at `0.0`, forward.hpp:389-390) has `val = 0` and
`grad = 0`, and is identical to a dual constructed from the scalar `0`. -/
theorem spec_c9_default_dual :
    dualDefault.val = 0 ∧ dualDefault.grad = 0 ∧ dualDefault = dualOfScalar 0 :=
  ⟨rfl, rfl, rfl⟩

/-- Claim C10: Accumulating a plain scalar into a dual, `self += c`
(forward.hpp:1050-1060) and `self -= c` (forward.hpp:1184-1194), in either
call shape, modifies only `val` (by `+c` resp. `-c`); `grad` is left
unchanged. -/
theorem spec_c10_scalar_accumulation_frame (F : Funs) (self tmp : Dual) (i : Nat) (c : ℚ) :
    (assignAdd F self (.numE i c)).1.grad = self.grad
  ∧ (assignAdd F self (.numE i c)).1.val = self.val + c
  ∧ (assignSub F self (.numE i c)).1.grad = self.grad
  ∧ (assignSub F self (.numE i c)).1.val = self.val - c
  ∧ (assignAddTmp F self tmp (.numE i c)).1.grad = self.grad
  ∧ (assignSubTmp F self tmp (.numE i c)).1.grad = self.grad := by
  refine ⟨?_, ?_, ?_, ?_, ?_, ?_⟩ <;> simp [assignAdd, assignSub, assignAddTmp, assignSubTmp]


/-- Claim C5: Self-aliasing compound assignments: the aliased execution of
`x += -x` (`xPlusNegX`, whose straight-line body follows the engine, which
copies the conflicting subtree by value before mutating the target) yields
`val = 0, grad = 0`; and the aliased execution of `x += 1/x` (`xPlusInvX`,
which materialises the whole source tree into a scratch dual before
mutating the target) yields the mathematically correct value and
derivative of `x + 1/x` at the original `x`.  Each aliased execution
agrees with the engine run on a tree holding a copy of `x` — i.e. with the
result of fully materialising the conflicting subtree first. -/
theorem spec_c5_self_aliasing (F : Funs) (x : Dual) :
    xPlusNegX x = ⟨0, 0⟩
  ∧ xPlusNegX x = (assignAdd F x (.unary .neg (.dualE 0 x))).1
  ∧ xPlusInvX F x = (assignAdd F x (divSE 1 (.dualE 0 x))).1
  ∧ xPlusInvX F x = ⟨x.val + 1 / x.val, x.grad - 1 / (x.val * x.val) * x.grad⟩ := by
  refine ⟨?_, ?_, ?_, ?_⟩
  · simp [xPlusNegX]
  · simp [xPlusNegX, assignAdd, evalE, assignAddNegativeDual]
  · simp [xPlusInvX, divSE, mulSE, inverseE, assignAdd, assignAddTmp, assign,
      assignMul, applyOp, assignMulScalar, addDual, evalE]
  · simp [xPlusInvX, applyOp, assignMulScalar, addDual, Dual.mk.injEq]
    try constructor
    all_goals ring

/-- Claim C6: Power rule with a plain scalar exponent.  Provided the external
`pow` satisfies `pow(u, 3) = u³`, the full pipeline
`derivative(x => pow(x, 3.0), wrt(x), x)` returns `3·val(x)·val(x)` for
every variable.  More generally, provided `pow(v, p) = v·pow(v, p-1)` at a
point `v ≠ 0`, the scalar-exponent update `grad' = grad·(p/val)·val^p`
(forward.hpp:1400-1406) equals the power rule `p·val^(p-1)·grad`. -/
theorem spec_c6_power_rule (F : Funs) (hpow3 : ∀ u : ℚ, F.powF u 3 = u ^ 3) :
    (∀ v g : ℚ,
      (derivCall1 F (fun xd => powC (.dualE 0 xd) (.numE 1 3)) ⟨v, g⟩).1 = 3 * v * v)
  ∧ (∀ v g p : ℚ, v ≠ 0 → F.powF v p = v * F.powF v (p - 1) →
      (assignPowScalar F ⟨v, g⟩ p).grad = p * F.powF v (p - 1) * g) := by
  constructor
  · intro v g
    have hp := (engine F (.powE (.dualE 0 (⟨v, 1⟩ : Dual)) (.numE 1 3))).heval
    simp only [derivCall1, powC]
    rw [hp]
    simp [refEval, powDualE, hpow3]
    rcases eq_or_ne v 0 with h | h
    · subst h; norm_num
    · field_simp
      ring
  · intro v g p hv hrec
    simp [assignPowScalar, hrec]
    field_simp
    ring


/-- For positive orders, `derivative` is exactly iterated `.grad` access. -/
theorem derivativeN_succ (n : Nat) : ∀ d, derivativeN (n + 1) d = ND.gf^[n + 1] d := by
  induction n with
  | zero => intro d; simp [derivativeN]
  | succ k ihk =>
      intro d
      have h1 : derivativeN (k + 2) d = derivativeN (k + 1) d.gf := rfl
      rw [h1, ihk, ← Function.iterate_succ_apply]

/-- Claim C4: `derivative<order>` on a (possibly nested) dual peels levels of
`.grad`: order 0 returns `d.val`, order 1 returns `d.grad`, and order
`n ≥ 1` returns the n-fold `.grad` access (recursive descent,
forward.hpp:530-539).  Order 0 is modelled by the value of the executed
first `return` statement; in the C++ the first `if constexpr` is not
chained by `else` to the second, so instantiating `derivative<0>` also
instantiates `derivative<order - 1>` with `order - 1` wrapping around to
`SIZE_MAX`, and `derivative<0>` in fact fails to compile — the value
semantics proved here is the stated intent. -/
theorem spec_c4_derivative_peels (d : ND) :
    derivativeN 0 d = d.vf ∧ derivativeN 1 d = d.gf
  ∧ (∀ n : Nat, 1 ≤ n → derivativeN n d = ND.gf^[n] d) := by
  refine ⟨rfl, rfl, ?_⟩
  intro n hn
  obtain ⟨k, rfl⟩ : ∃ k, n = k + 1 := ⟨n - 1, by omega⟩
  exact derivativeN_succ k d

/-- Witness for C4 at a concrete order-2 dual and order 2. -/
theorem spec_c4_derivative_peels_witness :
    derivativeN 2 (ND.dual (ND.dual (.num 1) (.num 2)) (ND.dual (.num 3) (.num 4))) =
      ND.gf^[2] (ND.dual (ND.dual (.num 1) (.num 2)) (ND.dual (.num 3) (.num 4)))
  ∧ derivativeN 2 (ND.dual (ND.dual (.num 1) (.num 2)) (ND.dual (.num 3) (.num 4))) =
      ND.num 4 :=
  ⟨(spec_c4_derivative_peels _).2.2 2 (by norm_num), rfl⟩

/-- Witness for C6: with the concrete power function `qpowNum`,
`derivative(x => pow(x, 3.0), wrt(x), x)` at `x = ⟨2, 5⟩` is `12`, and the
scalar-exponent gradient update at `v = 2, g = 7, p = 3` equals the power
rule. -/
theorem spec_c6_power_rule_witness :
    (derivCall1 Fpow (fun xd => powC (.dualE 0 xd) (.numE 1 3)) ⟨2, 5⟩).1 = 3 * 2 * 2
  ∧ (assignPowScalar Fpow ⟨2, 7⟩ 3).grad = 3 * Fpow.powF 2 (3 - 1) * 7 := by
  have h3 : ∀ u : ℚ, Fpow.powF u 3 = u ^ 3 := by
    intro u
    show u ^ ((3 : ℚ).num).toNat = u ^ 3
    rfl
  have hrec : Fpow.powF 2 3 = 2 * Fpow.powF 2 (3 - 1) := by
    show (2 : ℚ) ^ ((3 : ℚ).num).toNat = 2 * (2 : ℚ) ^ (((3 : ℚ) - 1).num).toNat
    have h2 : ((3 : ℚ) - 1) = 2 := by norm_num
    rw [h2]
    show (2 : ℚ) ^ (3 : ℕ) = 2 * (2 : ℚ) ^ (2 : ℕ)
    norm_num
  exact ⟨(spec_c6_power_rule Fpow h3).1 2 5,
    (spec_c6_power_rule Fpow h3).2 2 7 3 (by norm_num) hrec⟩

/-- Scalar assignment overwrites any previous scalar assignment. -/
theorem setScalar_setScalar : ∀ (g : ND) (c c' : ℚ),
    (g.setScalar c').setScalar c = g.setScalar c := by
  intro g
  induction g with
  | num q => intro c c'; rfl
  | dual v g ihv ihg => intro c c'; simp [ND.setScalar, ihv, ihg]

/-- A seeding write at level `i` overwrites any previous one. -/
theorem seedAt_seedAt : ∀ (i : Nat) (v : ND) (c c' : ℚ),
    seedAt c i (seedAt c' i v) = seedAt c i v := by
  intro i
  induction i with
  | zero => intro v c c'; cases v <;> simp [seedAt, setScalar_setScalar]
  | succ k ihk => intro v c c'; cases v <;> simp [seedAt, ihk]

/-- Seeding does not change the innermost scalar value read by `val`. -/
theorem valRead_seedAt : ∀ (i : Nat) (v : ND) (c : ℚ),
    (seedAt c i v).valRead = v.valRead := by
  intro i
  induction i with
  | zero => intro v c; cases v <;> simp [seedAt, ND.valRead]
  | succ k ihk => intro v c; cases v <;> simp [seedAt, ND.valRead, ihk]

/-- Seeding the `.val` member at depth `k` and writing it back is seeding
at depth `k + 1`. -/
theorem withVf_seedAt_vf (c : ℚ) (k : Nat) :
    ∀ d : ND, ND.withVf (seedAt c k d.vf) d = seedAt c (k + 1) d := by
  intro d; cases d <;> simp [ND.withVf, ND.vf, seedAt]

/-- The zip-with-write-back step of the variadic seed recursion shifts the
seeding depth by one. -/
theorem zipWith_seedIdx (c : ℚ) : ∀ (l : List ND) (k : Nat),
    List.zipWith ND.withVf (seedIdx c k (l.map ND.vf)) l = seedIdx c (k + 1) l := by
  intro l
  induction l with
  | nil => intro k; rfl
  | cons d rest ih => intro k; simp [seedIdx, withVf_seedAt_vf, ih]

/-- The variadic seed recursion seeds variable `i` at depth `i`. -/
theorem seedMany_eq_seedIdx (c : ℚ) : ∀ (n : Nat) (l : List ND), l.length ≤ n →
    seedMany c l = seedIdx c 0 l := by
  intro n
  induction n with
  | zero =>
      intro l hl
      cases l with
      | nil => simp [seedMany, seedIdx]
      | cons d rest => simp at hl
  | succ k ih =>
      intro l hl
      cases l with
      | nil => simp [seedMany, seedIdx]
      | cons d rest =>
          simp only [seedMany, seedIdx]
          rw [ih (rest.map ND.vf) (by simp at hl ⊢; omega), zipWith_seedIdx]

/-- `seedMany` equals the index-annotated seeding. -/
theorem seedMany_idx (c : ℚ) (l : List ND) : seedMany c l = seedIdx c 0 l :=
  seedMany_eq_seedIdx c l.length l le_rfl

/-- Re-seeding at the same depths overwrites. -/
theorem seedIdx_seedIdx (c c' : ℚ) : ∀ (l : List ND) (k : Nat),
    seedIdx c k (seedIdx c' k l) = seedIdx c k l := by
  intro l
  induction l with
  | nil => intro k; rfl
  | cons d rest ih => intro k; simp [seedIdx, seedAt_seedAt, ih]

/-- Seeding preserves the tuple length. -/
theorem seedIdx_length (c : ℚ) : ∀ (l : List ND) (k : Nat),
    (seedIdx c k l).length = l.length := by
  intro l
  induction l with
  | nil => intro k; rfl
  | cons d rest ih => intro k; simp [seedIdx, ih]

/-- Element `i` of the seeded tuple is the seeded element `i`. -/
theorem seedIdx_getD (c : ℚ) : ∀ (l : List ND) (k i : Nat), i < l.length →
    (seedIdx c k l).getD i (.num 0) = seedAt c (k + i) (l.getD i (.num 0)) := by
  intro l
  induction l with
  | nil => intro k i h; simp at h
  | cons d rest ih =>
      intro k i h
      cases i with
      | zero => simp [seedIdx]
      | succ j =>
          have hj := ih (k + 1) j (by simp at h; omega)
          simp only [seedIdx, List.getD_cons_succ]
          rw [hj]
          have : k + 1 + j = k + (j + 1) := by omega
          rw [this]

/-- Claim C8: After `derivative(f, wrt, args...)` returns, every variable of
the `wrt` tuple has been unseeded: variable `i`'s post-state is exactly
its pre-state with the grad channel at nesting level `i` set to zero, and
in particular the innermost scalar value read by `val` is unchanged by the
seeding/unseeding performed by the call. -/
theorem spec_c8_unseed_restores (f : List ND → ND) (vars : List ND) :
    (derivCallN f vars).2.length = vars.length
  ∧ ∀ i : Nat, i < vars.length →
      (derivCallN f vars).2.getD i (.num 0) = seedAt 0 i (vars.getD i (.num 0))
    ∧ ((derivCallN f vars).2.getD i (.num 0)).valRead = (vars.getD i (.num 0)).valRead := by
  have hpost : (derivCallN f vars).2 = seedIdx 0 0 (seedIdx 1 0 vars) := by
    simp [derivCallN, seedMany_idx]
  constructor
  · rw [hpost, seedIdx_length, seedIdx_length]
  · intro i hi
    rw [hpost, seedIdx_seedIdx, seedIdx_getD 0 vars 0 i hi]
    simp [valRead_seedAt]

/-- Witness for C8 at a concrete two-variable tuple (an order-1 and an
order-2 dual) and index 1. -/
theorem spec_c8_unseed_restores_witness :
    (derivCallN (fun _ => ND.num 0)
        [ND.dual (.num 5) (.num 7),
         ND.dual (ND.dual (.num 1) (.num 2)) (ND.dual (.num 3) (.num 4))]).2.getD 1 (.num 0)
      = seedAt 0 1
          (([ND.dual (.num 5) (.num 7),
             ND.dual (ND.dual (.num 1) (.num 2)) (ND.dual (.num 3) (.num 4))]).getD 1 (.num 0))
  ∧ ((derivCallN (fun _ => ND.num 0)
        [ND.dual (.num 5) (.num 7),
         ND.dual (ND.dual (.num 1) (.num 2)) (ND.dual (.num 3) (.num 4))]).2.getD 1 (.num 0)).valRead
      = (([ND.dual (.num 5) (.num 7),
           ND.dual (ND.dual (.num 1) (.num 2)) (ND.dual (.num 3) (.num 4))]).getD 1 (.num 0)).valRead :=
  (spec_c8_unseed_restores _ _).2 1 (by simp)


end Autodiff
